import Mathlib

/-!
Verification of the five-card poker hand classifier
(`src/js/evaluatePokerHand.js`).

The JavaScript source is shallowly embedded: cards are `(rank, suit)`
pairs with `rank : Int` and `suit : String`; the JS objects `rankCounts`
and `suitCounts` are represented by their key lists (deduplicated ranks
and suits of the hand) together with the count function; `Object.values`
enumeration corresponds to mapping the count function over the key list;
the thrown `Error` values become an `Except` error type.
-/

namespace Poker

/-- A card, as in the JS `Card` typedef: a numeric rank and a suit string. -/
structure Card where
  rank : Int
  suit : String
deriving DecidableEq, Repr

/-- The three distinct validation errors thrown by `validateHand`. -/
inductive HandError where
  | wrongCardinality
  | invalidRank
  | invalidSuit
deriving DecidableEq, Repr

def TOTAL_CARDS : Nat := 5

def MAX_RANK_DIFF : Int := 4

def ROYAL_TAIL_LENGTH : Nat := 4

def ACE_RANK : Int := 1

def BROADWAY_START : Int := 10

/-- JS `[...Array(13).keys()].map(i => i + 1)`: the ranks 1..13. -/
def VALID_RANKS : List Int := (List.range 13).map (fun i => Int.ofNat i + 1)

def VALID_SUITS : List String := ["club", "spade", "diamond", "heart"]

def FOUR_OF_A_KIND_COUNT : Nat := 4

def THREE_OF_A_KIND_COUNT : Nat := 3

def PAIR_COUNT : Nat := 2

def TWO_PAIR_COUNT : Nat := 2

/-- The per-card loop of `validateHand`: scan cards in order, checking
rank before suit, throwing on the first invalid field. -/
def validateCards : List Card → Except HandError Unit
  | [] => Except.ok ()
  | c :: cs =>
    if ¬ VALID_RANKS.contains c.rank then Except.error HandError.invalidRank
    else if ¬ VALID_SUITS.contains c.suit then Except.error HandError.invalidSuit
    else validateCards cs

/-- JS `validateHand`: reject hands that are not exactly 5 cards, then scan
each card's rank and suit. -/
def validateHand (hand : List Card) : Except HandError Unit :=
  if hand.length ≠ TOTAL_CARDS then Except.error HandError.wrongCardinality
  else validateCards hand

/-- Entry `rankCounts[r]` of `countRanksAndSuits`: how many cards of the hand
have rank `r`. -/
def rankCount (hand : List Card) (r : Int) : Nat :=
  (hand.map Card.rank).count r

/-- Entry `suitCounts[s]` of `countRanksAndSuits`: how many cards of the hand
have suit `s`. -/
def suitCount (hand : List Card) (s : String) : Nat :=
  (hand.map Card.suit).count s

/-- The keys of the JS `rankCounts` object: the distinct ranks occurring
in the hand. -/
def rankKeys (hand : List Card) : List Int :=
  (hand.map Card.rank).dedup

/-- The keys of the JS `suitCounts` object: the distinct suits occurring
in the hand. -/
def suitKeys (hand : List Card) : List String :=
  (hand.map Card.suit).dedup

/-- JS `Object.keys(rankCounts).map(Number).sort((a, b) => a - b)`:
the distinct ranks of the hand in ascending order. -/
def sortedRanks (hand : List Card) : List Int :=
  List.insertionSort (· ≤ ·) (rankKeys hand)

/-- JS `Object.values(rankCounts)`: the occurrence count of each distinct
rank (JS enumerates integer-like keys in ascending order). -/
def rankFrequencies (hand : List Card) : List Nat :=
  (sortedRanks hand).map (rankCount hand)

/-- JS `Object.values(suitCounts)`: the occurrence count of each distinct
suit. -/
def suitFrequencies (hand : List Card) : List Nat :=
  (suitKeys hand).map (suitCount hand)

/-- JS `isFlush`: `Math.max(...Object.values(suitCounts)) === TOTAL_CARDS`. -/
def isFlush (suitFreqs : List Nat) : Bool :=
  suitFreqs.foldr max 0 == TOTAL_CARDS

/-- JS `ranks.slice(-n)`: the last `n` elements of the list (the whole list
when it is shorter than `n`). -/
def lastSlice (n : Nat) (l : List Int) : List Int :=
  l.drop (l.length - n)

/-- JS `.every((val, index) => val === expected + index)` specialized to the
royal tail: each element equals the running expected value. -/
def royalTail : List Int → Int → Bool
  | [], _ => true
  | v :: vs, expected => v == expected && royalTail vs (expected + 1)

/-- JS `isRoyal`: the sorted distinct-rank list contains the Ace and its last
four elements are 10, 11, 12, 13 in order. -/
def isRoyal (ranks : List Int) : Bool :=
  ranks.contains ACE_RANK &&
    royalTail (lastSlice ROYAL_TAIL_LENGTH ranks) BROADWAY_START

/-- JS `isStraight`: five distinct ranks spanning exactly 4, or the Broadway
special case via `isRoyal`. -/
def isStraight (ranks : List Int) : Bool :=
  (ranks.length == TOTAL_CARDS &&
      ranks.getD (TOTAL_CARDS - 1) 0 - ranks.getD 0 0 == MAX_RANK_DIFF) ||
    isRoyal ranks

/-- The ordered `conditions` table of `evaluatePokerHand`: the first true
predicate determines the label, defaulting to `highcard`. -/
def classify (hand : List Card) : String :=
  let rankFreqs := rankFrequencies hand
  let ranks := sortedRanks hand
  let suitFreqs := suitFrequencies hand
  if isFlush suitFreqs && isRoyal ranks then "royalflush"
  else if isFlush suitFreqs && isStraight ranks then "straightflush"
  else if rankFreqs.contains FOUR_OF_A_KIND_COUNT then "fourofakind"
  else if rankFreqs.contains THREE_OF_A_KIND_COUNT &&
      rankFreqs.contains PAIR_COUNT then "fullhouse"
  else if isFlush suitFreqs then "flush"
  else if isStraight ranks then "straight"
  else if rankFreqs.contains THREE_OF_A_KIND_COUNT then "threeofakind"
  else if (rankFreqs.filter (· == PAIR_COUNT)).length = TWO_PAIR_COUNT then "twopair"
  else if rankFreqs.contains PAIR_COUNT then "pair"
  else "highcard"

/-- JS `evaluatePokerHand`: validate, then classify. -/
def evaluatePokerHand (hand : List Card) : Except HandError String := do
  validateHand hand
  pure (classify hand)

/-- A hand is well-formed: exactly five cards, each rank in 1..13, each
suit one of the four recognized suits. -/
def WellFormed (hand : List Card) : Prop :=
  hand.length = 5 ∧
    (∀ c ∈ hand, 1 ≤ c.rank ∧ c.rank ≤ 13) ∧
    (∀ c ∈ hand, c.suit ∈ VALID_SUITS)

instance : DecidablePred WellFormed := fun hand => by
  unfold WellFormed; infer_instance

/-- Spec-side predicate: some rank occurs exactly `n` times in the hand
("some rank count equals n"). -/
def SpecSomeCount (hand : List Card) (n : Nat) : Prop :=
  ∃ r ∈ VALID_RANKS, rankCount hand r = n

instance (hand : List Card) (n : Nat) : Decidable (SpecSomeCount hand n) :=
  List.decidableBEx _ _

/-- Spec-side predicate: exactly 2 distinct ranks have occurrence count 2. -/
def SpecTwoPair (hand : List Card) : Prop :=
  (VALID_RANKS.filter (fun r => rankCount hand r == PAIR_COUNT)).length = TWO_PAIR_COUNT

instance (hand : List Card) : Decidable (SpecTwoPair hand) := by
  unfold SpecTwoPair; infer_instance

/-- The spec's classification table, worded as in the specification:
the label of the first true predicate in strict order, `highcard` when
none is true. -/
def specClassify (hand : List Card) : String :=
  if isFlush (suitFrequencies hand) = true ∧ isRoyal (sortedRanks hand) = true then "royalflush"
  else if isFlush (suitFrequencies hand) = true ∧ isStraight (sortedRanks hand) = true then "straightflush"
  else if SpecSomeCount hand 4 then "fourofakind"
  else if SpecSomeCount hand 3 ∧ SpecSomeCount hand 2 then "fullhouse"
  else if isFlush (suitFrequencies hand) = true then "flush"
  else if isStraight (sortedRanks hand) = true then "straight"
  else if SpecSomeCount hand 3 then "threeofakind"
  else if SpecTwoPair hand then "twopair"
  else if SpecSomeCount hand 2 then "pair"
  else "highcard"

/-! ### Basic facts about the embedded definitions -/

theorem mem_VALID_RANKS {r : Int} : r ∈ VALID_RANKS ↔ 1 ≤ r ∧ r ≤ 13 := by
  constructor
  · intro h
    obtain ⟨i, hi, rfl⟩ := List.mem_map.mp h
    have := List.mem_range.mp hi
    simp only [Int.ofNat_eq_coe]
    omega
  · intro h
    refine List.mem_map.mpr ⟨(r - 1).toNat, List.mem_range.mpr (by omega), ?_⟩
    simp only [Int.ofNat_eq_coe]
    omega

theorem VALID_RANKS_nodup : VALID_RANKS.Nodup := by decide

theorem sortedRanks_sorted (hand : List Card) :
    List.Sorted (· ≤ ·) (sortedRanks hand) :=
  List.sorted_insertionSort _ _

theorem sortedRanks_perm (hand : List Card) :
    List.Perm (sortedRanks hand) (rankKeys hand) :=
  List.perm_insertionSort _ _

theorem sortedRanks_nodup (hand : List Card) : (sortedRanks hand).Nodup :=
  (sortedRanks_perm hand).nodup_iff.mpr (List.nodup_dedup _)

theorem mem_sortedRanks {hand : List Card} {r : Int} :
    r ∈ sortedRanks hand ↔ r ∈ hand.map Card.rank := by
  rw [(sortedRanks_perm hand).mem_iff]
  exact List.mem_dedup

theorem sortedRanks_length_le (hand : List Card) :
    (sortedRanks hand).length ≤ hand.length := by
  calc (sortedRanks hand).length = (rankKeys hand).length :=
        (sortedRanks_perm hand).length_eq
    _ ≤ (hand.map Card.rank).length := (List.dedup_sublist _).length_le
    _ = hand.length := List.length_map _ _

theorem rankCount_pos_iff {hand : List Card} {r : Int} :
    0 < rankCount hand r ↔ r ∈ hand.map Card.rank :=
  List.count_pos_iff

theorem rankCount_le_length (hand : List Card) (r : Int) :
    rankCount hand r ≤ hand.length := by
  simpa [rankCount] using List.count_le_length r (hand.map Card.rank)

theorem rankFrequencies_sum (hand : List Card) :
    (rankFrequencies hand).sum = hand.length := by
  have h1 : List.Perm (rankFrequencies hand) ((rankKeys hand).map (rankCount hand)) :=
    (sortedRanks_perm hand).map _
  rw [h1.sum_eq]
  simpa [rankKeys, rankCount] using
    List.sum_map_count_dedup_eq_length (hand.map Card.rank)

theorem suitFrequencies_sum (hand : List Card) :
    (suitFrequencies hand).sum = hand.length := by
  simpa [suitKeys, suitCount] using
    List.sum_map_count_dedup_eq_length (hand.map Card.suit)

theorem length_le_sum_of_one_le :
    ∀ l : List Nat, (∀ n ∈ l, 1 ≤ n) → l.length ≤ l.sum := by
  intro l
  induction l with
  | nil => simp
  | cons a t ih =>
    intro h
    have ha := h a (List.mem_cons_self a t)
    have ht := ih fun n hn => h n (List.mem_cons_of_mem a hn)
    simp only [List.length_cons, List.sum_cons]
    omega

theorem all_one_of_sum_eq_length :
    ∀ l : List Nat, l.sum = l.length → (∀ n ∈ l, 1 ≤ n) → ∀ n ∈ l, n = 1 := by
  intro l
  induction l with
  | nil => simp
  | cons a t ih =>
    intro hsum hpos n hn
    have ha := hpos a (List.mem_cons_self a t)
    have hlen := length_le_sum_of_one_le t fun m hm => hpos m (List.mem_cons_of_mem a hm)
    simp only [List.sum_cons, List.length_cons] at hsum
    rcases List.mem_cons.mp hn with rfl | hn
    · omega
    · exact ih (by omega) (fun m hm => hpos m (List.mem_cons_of_mem a hm)) n hn

theorem mem_rankFrequencies_pos {hand : List Card} {n : Nat}
    (h : n ∈ rankFrequencies hand) : 1 ≤ n := by
  obtain ⟨r, hr, rfl⟩ := List.mem_map.mp h
  exact rankCount_pos_iff.mpr (mem_sortedRanks.mp hr)

theorem contains_rankFrequencies_iff {hand : List Card} {n : Nat} (hn : n ≠ 0)
    (hv : ∀ c ∈ hand, 1 ≤ c.rank ∧ c.rank ≤ 13) :
    (rankFrequencies hand).contains n = true ↔ SpecSomeCount hand n := by
  rw [List.elem_iff]
  constructor
  · intro h
    obtain ⟨r, hr, rfl⟩ := List.mem_map.mp h
    refine ⟨r, ?_, rfl⟩
    obtain ⟨c, hc, rfl⟩ := List.mem_map.mp (mem_sortedRanks.mp hr)
    exact mem_VALID_RANKS.mpr (hv c hc)
  · rintro ⟨r, _hr, hcount⟩
    refine List.mem_map.mpr ⟨r, ?_, hcount⟩
    exact mem_sortedRanks.mpr (rankCount_pos_iff.mp (by omega))

theorem twopair_length_iff {hand : List Card}
    (hv : ∀ c ∈ hand, 1 ≤ c.rank ∧ c.rank ≤ 13) :
    ((rankFrequencies hand).filter (· == PAIR_COUNT)).length = TWO_PAIR_COUNT ↔
      SpecTwoPair hand := by
  have h1 : (rankFrequencies hand).filter (· == PAIR_COUNT) =
      ((sortedRanks hand).filter (fun r => rankCount hand r == PAIR_COUNT)).map
        (rankCount hand) := by
    simp only [rankFrequencies, List.filter_map]
    rfl
  have h2 : List.Perm
      ((sortedRanks hand).filter (fun r => rankCount hand r == PAIR_COUNT))
      (VALID_RANKS.filter (fun r => rankCount hand r == PAIR_COUNT)) := by
    rw [List.perm_ext_iff_of_nodup ((sortedRanks_nodup hand).filter _)
      (VALID_RANKS_nodup.filter _)]
    intro a
    simp only [List.mem_filter]
    constructor
    · rintro ⟨ha, hq⟩
      refine ⟨?_, hq⟩
      obtain ⟨c, hc, rfl⟩ := List.mem_map.mp (mem_sortedRanks.mp ha)
      exact mem_VALID_RANKS.mpr (hv c hc)
    · rintro ⟨_, hq⟩
      have hc2 : rankCount hand a = 2 := by simpa [PAIR_COUNT] using hq
      exact ⟨mem_sortedRanks.mpr (rankCount_pos_iff.mp (by omega)), hq⟩
  unfold SpecTwoPair
  rw [h1, List.length_map, h2.length_eq]

/-! ### Validation -/

theorem validateCards_ok_iff (cs : List Card) :
    validateCards cs = Except.ok () ↔
      ∀ c ∈ cs, c.rank ∈ VALID_RANKS ∧ c.suit ∈ VALID_SUITS := by
  induction cs with
  | nil => simp [validateCards]
  | cons c cs ih =>
    simp only [validateCards, List.forall_mem_cons]
    by_cases hr : VALID_RANKS.contains c.rank = true
    · by_cases hs : VALID_SUITS.contains c.suit = true
      · simp [hr, hs, ih, List.elem_iff.mp hr, List.elem_iff.mp hs]
      · simp only [hr, hs, not_true, not_false_iff, if_false, if_true]
        constructor
        · intro h
          exact absurd h (by simp)
        · rintro ⟨⟨_, hsu⟩, _⟩
          exact absurd (List.elem_iff.mpr hsu) hs
    · simp only [hr, not_false_iff, if_true]
      constructor
      · intro h
        exact absurd h (by simp)
      · rintro ⟨⟨hra, _⟩, _⟩
        exact absurd (List.elem_iff.mpr hra) hr

theorem validateHand_ok_iff {hand : List Card} :
    validateHand hand = Except.ok () ↔ WellFormed hand := by
  unfold validateHand WellFormed TOTAL_CARDS
  by_cases h5 : hand.length = 5
  · rw [if_neg (by omega), validateCards_ok_iff]
    constructor
    · intro h
      exact ⟨h5, fun c hc => mem_VALID_RANKS.mp (h c hc).1,
        fun c hc => (h c hc).2⟩
    · rintro ⟨_, hr, hs⟩ c hc
      exact ⟨mem_VALID_RANKS.mpr (hr c hc), hs c hc⟩
  · rw [if_pos h5]
    constructor
    · intro h
      exact Except.noConfusion h
    · rintro ⟨h, _⟩
      exact absurd h h5

theorem evaluatePokerHand_eq_ok {hand : List Card} (hw : WellFormed hand) :
    evaluatePokerHand hand = Except.ok (classify hand) := by
  have h := validateHand_ok_iff.mpr hw
  simp [evaluatePokerHand, h]

theorem classify_eq_specClassify {hand : List Card} (hw : WellFormed hand) :
    classify hand = specClassify hand := by
  obtain ⟨h5, hranks, hsuits⟩ := hw
  have c4 := contains_rankFrequencies_iff (n := 4) (by omega) hranks
  have c3 := contains_rankFrequencies_iff (n := 3) (by omega) hranks
  have c2 := contains_rankFrequencies_iff (n := 2) (by omega) hranks
  have tp := twopair_length_iff hranks
  simp only [classify, specClassify, FOUR_OF_A_KIND_COUNT, THREE_OF_A_KIND_COUNT,
    PAIR_COUNT, TWO_PAIR_COUNT, Bool.and_eq_true] at c4 c3 c2 tp ⊢
  simp only [c4, c3, c2, tp]

/-- C1: for every valid 5-card hand, `evaluatePokerHand` returns the label
of the first true predicate in the strict order royalflush, straightflush,
fourofakind, fullhouse, flush, straight, threeofakind, twopair, pair, and
`highcard` when none is true. -/
theorem evaluatePokerHand_first_match (hand : List Card) (hw : WellFormed hand) :
    evaluatePokerHand hand = Except.ok (specClassify hand) := by
  rw [evaluatePokerHand_eq_ok hw, classify_eq_specClassify hw]

/-- Witness for C1 at the full-house scenario hand. -/
theorem evaluatePokerHand_first_match_witness :
    evaluatePokerHand
        [⟨5, "club"⟩, ⟨5, "spade"⟩, ⟨5, "diamond"⟩, ⟨9, "heart"⟩, ⟨9, "club"⟩] =
      Except.ok (specClassify
        [⟨5, "club"⟩, ⟨5, "spade"⟩, ⟨5, "diamond"⟩, ⟨9, "heart"⟩, ⟨9, "club"⟩]) :=
  evaluatePokerHand_first_match _ (by decide)

/-! ### Straight and Royal detection -/

/-- The spec's straight predicate: five distinct ranks whose maximum minus
minimum equals 4, or the Royal predicate. -/
def SpecStraight (l : List Int) : Prop :=
  (l.length = 5 ∧
    ∃ m M, m ∈ l ∧ M ∈ l ∧ (∀ x ∈ l, m ≤ x ∧ x ≤ M) ∧ M - m = 4) ∨
    isRoyal l = true

theorem sorted_five_max_min {l : List Int} (hs : List.Sorted (· ≤ ·) l)
    (h5 : l.length = 5) :
    (∃ m M, m ∈ l ∧ M ∈ l ∧ (∀ x ∈ l, m ≤ x ∧ x ≤ M) ∧ M - m = 4) ↔
      l.getD 4 0 - l.getD 0 0 = 4 := by
  match l, h5 with
  | [a, b, c, d, e], _ =>
    simp only [List.sorted_cons, List.forall_mem_cons, List.forall_mem_nil,
      List.sorted_nil, and_true] at hs
    constructor
    · rintro ⟨m, M, hm, hM, hb, hMm⟩
      have h1 := hb a (by simp)
      have h2 := hb e (by simp)
      simp only [List.mem_cons, List.not_mem_nil, or_false] at hm hM
      simp only [List.getD_cons_succ, List.getD_cons_zero]
      rcases hm with rfl | rfl | rfl | rfl | rfl <;>
        rcases hM with rfl | rfl | rfl | rfl | rfl <;> omega
    · intro h
      simp only [List.getD_cons_succ, List.getD_cons_zero] at h
      refine ⟨a, e, by simp, by simp, ?_, by omega⟩
      intro x hx
      simp only [List.mem_cons, List.not_mem_nil, or_false] at hx
      rcases hx with rfl | rfl | rfl | rfl | rfl <;> constructor <;> omega

/-- C3: the straight predicate is true iff the sorted distinct-rank list
has exactly 5 elements and its maximum minus its minimum equals 4, or the
Royal predicate holds for that list. -/
theorem isStraight_iff_spec (hand : List Card) (_hw : WellFormed hand) :
    isStraight (sortedRanks hand) = true ↔ SpecStraight (sortedRanks hand) := by
  have hsorted := sortedRanks_sorted hand
  unfold SpecStraight
  simp only [isStraight, TOTAL_CARDS, MAX_RANK_DIFF, Bool.or_eq_true,
    Bool.and_eq_true, beq_iff_eq]
  constructor
  · rintro (⟨hlen, hdiff⟩ | hroyal)
    · exact Or.inl ⟨hlen, (sorted_five_max_min hsorted hlen).mpr hdiff⟩
    · exact Or.inr hroyal
  · rintro (⟨hlen, hex⟩ | hroyal)
    · exact Or.inl ⟨hlen, (sorted_five_max_min hsorted hlen).mp hex⟩
    · exact Or.inr hroyal

/-- Witness for C3 at the straight scenario hand. -/
theorem isStraight_iff_spec_witness :
    isStraight (sortedRanks
        [⟨2, "heart"⟩, ⟨3, "spade"⟩, ⟨4, "diamond"⟩, ⟨5, "club"⟩, ⟨6, "spade"⟩]) = true ↔
      SpecStraight (sortedRanks
        [⟨2, "heart"⟩, ⟨3, "spade"⟩, ⟨4, "diamond"⟩, ⟨5, "club"⟩, ⟨6, "spade"⟩]) :=
  isStraight_iff_spec _ (by decide)

theorem isRoyal_eq_true_iff {l : List Int} (hlen : l.length ≤ 5) :
    isRoyal l = true ↔ l = [1, 10, 11, 12, 13] := by
  constructor
  · intro h
    rcases l with _ | ⟨a, _ | ⟨b, _ | ⟨c, _ | ⟨d, _ | ⟨e, rest⟩⟩⟩⟩⟩
    · simp [isRoyal] at h
    · simp [isRoyal, lastSlice, royalTail, ACE_RANK, BROADWAY_START] at h
      omega
    · simp [isRoyal, lastSlice, royalTail, ACE_RANK, BROADWAY_START] at h
      omega
    · simp [isRoyal, lastSlice, royalTail, ACE_RANK, BROADWAY_START] at h
      omega
    · simp [isRoyal, lastSlice, royalTail, ACE_RANK, BROADWAY_START] at h
      omega
    · rcases rest with _ | ⟨f, rest⟩
      · simp [isRoyal, lastSlice, royalTail, ACE_RANK, BROADWAY_START] at h
        obtain ⟨h1, hb, hc, hd, he⟩ := h
        subst hb hc hd he
        rcases h1 with rfl | h1
        · rfl
        · omega
      · simp at hlen
  · rintro rfl
    decide

/-- C4: the Royal predicate is true iff the set of distinct ranks is
exactly {1, 10, 11, 12, 13}; its truth implies the distinct-rank list has
exactly 5 elements. -/
theorem isRoyal_iff_broadway_set (hand : List Card) (hw : WellFormed hand) :
    (isRoyal (sortedRanks hand) = true ↔
      ∀ r : Int, r ∈ hand.map Card.rank ↔ r ∈ ([1, 10, 11, 12, 13] : List Int)) ∧
    (isRoyal (sortedRanks hand) = true → (sortedRanks hand).length = 5) := by
  have hlen : (sortedRanks hand).length ≤ 5 :=
    le_trans (sortedRanks_length_le hand) (le_of_eq hw.1)
  have hiff := isRoyal_eq_true_iff hlen
  constructor
  · rw [hiff]
    constructor
    · intro hl r
      rw [← mem_sortedRanks, hl]
    · intro hmem
      apply List.eq_of_perm_of_sorted ?_ (sortedRanks_sorted hand) (by decide)
      rw [List.perm_ext_iff_of_nodup (sortedRanks_nodup hand) (by decide)]
      intro a
      rw [mem_sortedRanks]
      exact hmem a
  · intro h
    rw [hiff.mp h]
    rfl

/-- Witness for C4 at the royal-flush scenario hand. -/
theorem isRoyal_iff_broadway_set_witness :
    (isRoyal (sortedRanks
        [⟨1, "heart"⟩, ⟨10, "heart"⟩, ⟨11, "heart"⟩, ⟨12, "heart"⟩, ⟨13, "heart"⟩]) = true ↔
      ∀ r : Int, r ∈ (List.map Card.rank
        [⟨1, "heart"⟩, ⟨10, "heart"⟩, ⟨11, "heart"⟩, ⟨12, "heart"⟩, ⟨13, "heart"⟩]) ↔
        r ∈ ([1, 10, 11, 12, 13] : List Int)) ∧
    (isRoyal (sortedRanks
        [⟨1, "heart"⟩, ⟨10, "heart"⟩, ⟨11, "heart"⟩, ⟨12, "heart"⟩, ⟨13, "heart"⟩]) = true →
      (sortedRanks
        [⟨1, "heart"⟩, ⟨10, "heart"⟩, ⟨11, "heart"⟩, ⟨12, "heart"⟩, ⟨13, "heart"⟩]).length = 5) :=
  isRoyal_iff_broadway_set _ (by decide)

/-! ### Error taxonomy -/

theorem validateCards_ne_wrongCardinality :
    ∀ cs : List Card, validateCards cs ≠ Except.error HandError.wrongCardinality := by
  intro cs
  induction cs with
  | nil => intro h; exact Except.noConfusion h
  | cons c cs ih =>
    intro h
    by_cases hr : VALID_RANKS.contains c.rank = true
    · by_cases hs : VALID_SUITS.contains c.suit = true
      · rw [validateCards, if_neg (not_not_intro hr), if_neg (not_not_intro hs)] at h
        exact ih h
      · rw [validateCards, if_neg (not_not_intro hr), if_pos hs] at h
        simp at h
    · rw [validateCards, if_pos hr] at h
      simp at h

theorem validateCards_error_rank :
    ∀ cs : List Card, validateCards cs = Except.error HandError.invalidRank →
      ∃ c ∈ cs, c.rank ∉ VALID_RANKS := by
  intro cs
  induction cs with
  | nil => intro h; exact Except.noConfusion h
  | cons c cs ih =>
    intro h
    by_cases hr : VALID_RANKS.contains c.rank = true
    · by_cases hs : VALID_SUITS.contains c.suit = true
      · rw [validateCards, if_neg (not_not_intro hr), if_neg (not_not_intro hs)] at h
        obtain ⟨c', hc', hbad⟩ := ih h
        exact ⟨c', List.mem_cons_of_mem _ hc', hbad⟩
      · rw [validateCards, if_neg (not_not_intro hr), if_pos hs] at h
        simp at h
    · exact ⟨c, List.mem_cons_self _ _, fun hmem => hr (List.elem_iff.mpr hmem)⟩

theorem validateCards_error_suit :
    ∀ cs : List Card, validateCards cs = Except.error HandError.invalidSuit →
      ∃ c ∈ cs, c.suit ∉ VALID_SUITS := by
  intro cs
  induction cs with
  | nil => intro h; exact Except.noConfusion h
  | cons c cs ih =>
    intro h
    by_cases hr : VALID_RANKS.contains c.rank = true
    · by_cases hs : VALID_SUITS.contains c.suit = true
      · rw [validateCards, if_neg (not_not_intro hr), if_neg (not_not_intro hs)] at h
        obtain ⟨c', hc', hbad⟩ := ih h
        exact ⟨c', List.mem_cons_of_mem _ hc', hbad⟩
      · exact ⟨c, List.mem_cons_self _ _, fun hmem => hs (List.elem_iff.mpr hmem)⟩
    · rw [validateCards, if_pos hr] at h
      simp at h

theorem eval_error_iff {hand : List Card} {e : HandError} :
    evaluatePokerHand hand = Except.error e ↔ validateHand hand = Except.error e := by
  unfold evaluatePokerHand
  cases hv : validateHand hand with
  | ok u => cases u; simp [hv]
  | error e' => simp [hv]

/-- C5: the classifier fails exactly on malformed input, before any
classification work: it succeeds iff the hand is well-formed; the
wrong-cardinality error occurs exactly when the hand length is not 5; the
invalid-rank error implies some card's rank lies outside [1,13]; the
invalid-suit error implies some card's suit is not a recognized suit. -/
theorem validation_taxonomy (hand : List Card) :
    ((∃ s, evaluatePokerHand hand = Except.ok s) ↔ WellFormed hand) ∧
    (evaluatePokerHand hand = Except.error HandError.wrongCardinality ↔
      hand.length ≠ 5) ∧
    (evaluatePokerHand hand = Except.error HandError.invalidRank →
      hand.length = 5 ∧ ∃ c ∈ hand, ¬(1 ≤ c.rank ∧ c.rank ≤ 13)) ∧
    (evaluatePokerHand hand = Except.error HandError.invalidSuit →
      hand.length = 5 ∧ ∃ c ∈ hand, c.suit ∉ VALID_SUITS) := by
  refine ⟨?_, ?_, ?_, ?_⟩
  · constructor
    · rintro ⟨s, hok⟩
      cases hv : validateHand hand with
      | ok u => cases u; exact validateHand_ok_iff.mp hv
      | error e' =>
        rw [eval_error_iff.mpr hv] at hok
        exact Except.noConfusion hok
    · intro hw
      exact ⟨classify hand, evaluatePokerHand_eq_ok hw⟩
  · rw [eval_error_iff]
    unfold validateHand
    by_cases h5 : hand.length = 5
    · rw [if_neg (by simp [TOTAL_CARDS, h5])]
      constructor
      · intro h
        exact absurd h (validateCards_ne_wrongCardinality hand)
      · intro h
        exact absurd h5 h
    · rw [if_pos (by simp [TOTAL_CARDS, h5])]
      simp [h5]
  · intro h
    rw [eval_error_iff] at h
    unfold validateHand at h
    by_cases h5 : hand.length = 5
    · rw [if_neg (by simp [TOTAL_CARDS, h5])] at h
      obtain ⟨c, hc, hbad⟩ := validateCards_error_rank hand h
      exact ⟨h5, c, hc, fun hb => hbad (mem_VALID_RANKS.mpr hb)⟩
    · rw [if_pos (by simp [TOTAL_CARDS, h5])] at h
      simp at h
  · intro h
    rw [eval_error_iff] at h
    unfold validateHand at h
    by_cases h5 : hand.length = 5
    · rw [if_neg (by simp [TOTAL_CARDS, h5])] at h
      obtain ⟨c, hc, hbad⟩ := validateCards_error_suit hand h
      exact ⟨h5, c, hc, hbad⟩
    · rw [if_pos (by simp [TOTAL_CARDS, h5])] at h
      simp at h

/-- Witness for C5: a rank of 0 on an otherwise valid 5-card hand yields
a hand containing a card with rank outside [1,13]. -/
theorem validation_taxonomy_witness :
    (([⟨0, "heart"⟩, ⟨2, "spade"⟩, ⟨3, "diamond"⟩, ⟨4, "club"⟩, ⟨5, "spade"⟩] :
        List Card).length = 5 ∧
      ∃ c ∈ ([⟨0, "heart"⟩, ⟨2, "spade"⟩, ⟨3, "diamond"⟩, ⟨4, "club"⟩,
        ⟨5, "spade"⟩] : List Card), ¬(1 ≤ c.rank ∧ c.rank ≤ 13)) :=
  (validation_taxonomy _).2.2.1 rfl

/-- The per-card scan stops at the first invalid field, checking rank
before suit within each card. -/
theorem validateCards_first_bad (c : Card) (post : List Card) :
    ∀ pre : List Card,
      (∀ c' ∈ pre, c'.rank ∈ VALID_RANKS ∧ c'.suit ∈ VALID_SUITS) →
      (c.rank ∉ VALID_RANKS ∨ c.suit ∉ VALID_SUITS) →
      validateCards (pre ++ c :: post) =
        Except.error (if c.rank ∈ VALID_RANKS then HandError.invalidSuit
          else HandError.invalidRank) := by
  intro pre
  induction pre with
  | nil =>
    intro _ hbad
    rw [List.nil_append, validateCards]
    by_cases hr : c.rank ∈ VALID_RANKS
    · have hsu : c.suit ∉ VALID_SUITS := hbad.resolve_left (not_not_intro hr)
      rw [if_neg (not_not_intro (List.elem_iff.mpr hr)),
        if_pos (fun hb => hsu (List.elem_iff.mp hb)), if_pos hr]
    · rw [if_pos (fun hb => hr (List.elem_iff.mp hb)), if_neg hr]
  | cons p pre ih =>
    intro hpre hbad
    have hp := hpre p (List.mem_cons_self _ _)
    rw [List.cons_append, validateCards,
      if_neg (not_not_intro (List.elem_iff.mpr hp.1)),
      if_neg (not_not_intro (List.elem_iff.mpr hp.2))]
    exact ih (fun c' hc' => hpre c' (List.mem_cons_of_mem _ hc')) hbad

/-- C10: when a 5-card hand has invalid fields, the reported error is
decided by scanning cards in input order, rank before suit within each
card: with all cards before `c` valid and `c` invalid, the error is
invalid-rank unless `c`'s rank is valid, in which case it is
invalid-suit. -/
theorem first_invalid_field (pre : List Card) (c : Card) (post : List Card)
    (hlen : (pre ++ c :: post).length = 5)
    (hpre : ∀ c' ∈ pre, c'.rank ∈ VALID_RANKS ∧ c'.suit ∈ VALID_SUITS)
    (hbad : c.rank ∉ VALID_RANKS ∨ c.suit ∉ VALID_SUITS) :
    evaluatePokerHand (pre ++ c :: post) =
      Except.error (if c.rank ∈ VALID_RANKS then HandError.invalidSuit
        else HandError.invalidRank) := by
  rw [eval_error_iff]
  unfold validateHand
  rw [if_neg (by simp [TOTAL_CARDS, hlen])]
  exact validateCards_first_bad c post pre hpre hbad

/-- Witness for C10: a first card whose rank and suit are both invalid
yields the invalid-rank error. -/
theorem first_invalid_field_witness :
    evaluatePokerHand
        ([] ++ (⟨0, "zzz"⟩ : Card) ::
          [⟨2, "spade"⟩, ⟨3, "diamond"⟩, ⟨4, "club"⟩, ⟨5, "spade"⟩]) =
      Except.error (if (⟨0, "zzz"⟩ : Card).rank ∈ VALID_RANKS then
        HandError.invalidSuit else HandError.invalidRank) :=
  first_invalid_field [] ⟨0, "zzz"⟩ _ (by decide) (by simp)
    (Or.inl (by decide))

/-! ### Flush detection -/

theorem foldr_max_mem (l : List Nat) (b : Nat) :
    l.foldr max b = b ∨ l.foldr max b ∈ l := by
  induction l with
  | nil => exact Or.inl rfl
  | cons a t ih =>
    simp only [List.foldr_cons]
    rcases Nat.le_total a (t.foldr max b) with h | h
    · rw [max_eq_right h]
      rcases ih with h' | h'
      · exact Or.inl h'
      · exact Or.inr (List.mem_cons_of_mem _ h')
    · rw [max_eq_left h]
      exact Or.inr (List.mem_cons_self _ _)

theorem le_foldr_max (l : List Nat) (b : Nat) : ∀ x ∈ l, x ≤ l.foldr max b := by
  induction l with
  | nil => simp
  | cons a t ih =>
    intro x hx
    rcases List.mem_cons.mp hx with rfl | hx
    · exact le_max_left _ _
    · exact le_trans (ih x hx) (le_max_right _ _)

theorem base_le_foldr_max (l : List Nat) (b : Nat) : b ≤ l.foldr max b := by
  induction l with
  | nil => exact le_refl b
  | cons a t ih => exact le_trans ih (le_max_right _ _)

theorem foldr_max_le (l : List Nat) (b c : Nat) (hb : b ≤ c)
    (h : ∀ x ∈ l, x ≤ c) : l.foldr max b ≤ c := by
  induction l with
  | nil => exact hb
  | cons a t ih =>
    simp only [List.foldr_cons]
    exact max_le (h a (List.mem_cons_self _ _))
      (ih fun x hx => h x (List.mem_cons_of_mem _ hx))

theorem foldr_max_perm {l₁ l₂ : List Nat} (hp : List.Perm l₁ l₂) (b : Nat) :
    l₁.foldr max b = l₂.foldr max b := by
  apply Nat.le_antisymm
  · exact foldr_max_le _ _ _ (base_le_foldr_max _ _)
      fun x hx => le_foldr_max _ _ x (hp.mem_iff.mp hx)
  · exact foldr_max_le _ _ _ (base_le_foldr_max _ _)
      fun x hx => le_foldr_max _ _ x (hp.mem_iff.mpr hx)

/-- The flush detector agrees with "all five cards share one suit". -/
theorem isFlush_iff {hand : List Card} (h5 : hand.length = 5) :
    isFlush (suitFrequencies hand) = true ↔ ∃ s, ∀ c ∈ hand, c.suit = s := by
  unfold isFlush TOTAL_CARDS
  rw [beq_iff_eq]
  constructor
  · intro h
    rcases foldr_max_mem (suitFrequencies hand) 0 with h0 | hmem
    · omega
    · rw [h] at hmem
      obtain ⟨s, _, hcnt⟩ := List.mem_map.mp hmem
      refine ⟨s, fun c hc => ?_⟩
      have hlen : (hand.map Card.suit).count s = (hand.map Card.suit).length := by
        simp only [List.length_map, h5]
        exact hcnt
      exact (List.count_eq_length.mp hlen _ (List.mem_map_of_mem _ hc)).symm
  · rintro ⟨s, hs⟩
    have hmap : hand.map Card.suit = List.replicate 5 s :=
      List.eq_replicate_iff.mpr ⟨by simp [h5], fun b hb => by
        obtain ⟨c, hc, rfl⟩ := List.mem_map.mp hb
        exact hs c hc⟩
    have hsf : suitFrequencies hand = [5] := by
      simp [suitFrequencies, suitKeys, suitCount, hmap,
        List.replicate, List.dedup_cons_of_mem, List.dedup_cons_of_not_mem]
    rw [hsf]
    rfl

/-- C6: for every valid hand satisfying both the flush and the straight
predicates, the classifier returns `straightflush` or `royalflush`, never
plain `flush`. -/
theorem flush_straight_precedence (hand : List Card) (hw : WellFormed hand)
    (hf : isFlush (suitFrequencies hand) = true)
    (hs : isStraight (sortedRanks hand) = true) :
    (evaluatePokerHand hand = Except.ok "straightflush" ∨
      evaluatePokerHand hand = Except.ok "royalflush") ∧
      evaluatePokerHand hand ≠ Except.ok "flush" := by
  rw [evaluatePokerHand_eq_ok hw]
  have hcl : classify hand = "straightflush" ∨ classify hand = "royalflush" := by
    by_cases hroyal : isRoyal (sortedRanks hand) = true
    · right
      simp [classify, hf, hroyal]
    · left
      rw [Bool.not_eq_true] at hroyal
      simp [classify, hf, hs, hroyal]
  constructor
  · rcases hcl with h | h
    · exact Or.inl (by rw [h])
    · exact Or.inr (by rw [h])
  · intro habs
    rcases hcl with h | h <;> rw [h] at habs <;> simp at habs

/-- Witness for C6 at the straight-flush scenario hand. -/
theorem flush_straight_precedence_witness :
    ((evaluatePokerHand
        [⟨2, "spade"⟩, ⟨3, "spade"⟩, ⟨4, "spade"⟩, ⟨5, "spade"⟩, ⟨6, "spade"⟩] =
      Except.ok "straightflush" ∨
      evaluatePokerHand
        [⟨2, "spade"⟩, ⟨3, "spade"⟩, ⟨4, "spade"⟩, ⟨5, "spade"⟩, ⟨6, "spade"⟩] =
      Except.ok "royalflush") ∧
      evaluatePokerHand
        [⟨2, "spade"⟩, ⟨3, "spade"⟩, ⟨4, "spade"⟩, ⟨5, "spade"⟩, ⟨6, "spade"⟩] ≠
        Except.ok "flush") :=
  flush_straight_precedence _ (by decide) (by decide) (by decide)

/-! ### Permutation invariance -/

theorem wellFormed_perm {hand hand' : List Card} (hp : List.Perm hand hand')
    (hw : WellFormed hand) : WellFormed hand' :=
  ⟨hp.length_eq ▸ hw.1,
    fun c hc => hw.2.1 c (hp.mem_iff.mpr hc),
    fun c hc => hw.2.2 c (hp.mem_iff.mpr hc)⟩

theorem sortedRanks_perm_eq {hand hand' : List Card} (hp : List.Perm hand hand') :
    sortedRanks hand' = sortedRanks hand := by
  apply List.eq_of_perm_of_sorted ?_ (sortedRanks_sorted hand')
    (sortedRanks_sorted hand)
  exact (sortedRanks_perm hand').trans
    (((hp.map Card.rank).dedup.symm).trans (sortedRanks_perm hand).symm)

theorem rankCount_perm_eq {hand hand' : List Card} (hp : List.Perm hand hand') :
    rankCount hand' = rankCount hand :=
  funext fun r => ((hp.map Card.rank).count_eq r).symm

theorem suitCount_perm_eq {hand hand' : List Card} (hp : List.Perm hand hand') :
    suitCount hand' = suitCount hand :=
  funext fun s => ((hp.map Card.suit).count_eq s).symm

theorem rankFrequencies_perm_eq {hand hand' : List Card}
    (hp : List.Perm hand hand') :
    rankFrequencies hand' = rankFrequencies hand := by
  unfold rankFrequencies
  rw [sortedRanks_perm_eq hp, rankCount_perm_eq hp]

theorem isFlush_perm_eq {hand hand' : List Card} (hp : List.Perm hand hand') :
    isFlush (suitFrequencies hand') = isFlush (suitFrequencies hand) := by
  have hperm : List.Perm (suitFrequencies hand') (suitFrequencies hand) := by
    unfold suitFrequencies suitKeys
    rw [suitCount_perm_eq hp]
    exact ((hp.map Card.suit).dedup.symm).map _
  unfold isFlush
  rw [foldr_max_perm hperm 0]

theorem classify_perm_eq {hand hand' : List Card} (hp : List.Perm hand hand') :
    classify hand' = classify hand := by
  simp only [classify]
  rw [sortedRanks_perm_eq hp, rankFrequencies_perm_eq hp, isFlush_perm_eq hp]

/-- C7: for every valid hand and every permutation of its cards, the
classifier returns the same label; the result is a pure function of the
multiset of cards. -/
theorem eval_perm_invariant (hand hand' : List Card) (hw : WellFormed hand)
    (hp : List.Perm hand hand') :
    evaluatePokerHand hand' = evaluatePokerHand hand := by
  rw [evaluatePokerHand_eq_ok hw, evaluatePokerHand_eq_ok (wellFormed_perm hp hw),
    classify_perm_eq hp]

/-- Witness for C7: reversing a full-house hand does not change the
result. -/
theorem eval_perm_invariant_witness :
    evaluatePokerHand
        [⟨9, "club"⟩, ⟨9, "heart"⟩, ⟨5, "diamond"⟩, ⟨5, "spade"⟩, ⟨5, "club"⟩] =
      evaluatePokerHand
        [⟨5, "club"⟩, ⟨5, "spade"⟩, ⟨5, "diamond"⟩, ⟨9, "heart"⟩, ⟨9, "club"⟩] :=
  eval_perm_invariant _ _ (by decide) (by decide)

/-! ### Multiset invariants -/

/-- Five copies of the same card: validation accepts duplicate cards. -/
def dupHand : List Card := List.replicate 5 ⟨7, "heart"⟩

/-- C8 counterexample: on a validated hand of five identical cards, a rank
occurrence count of 5 appears, outside the claimed range 1..4. -/
theorem rank_count_range_counterexample :
    validateHand dupHand = Except.ok () ∧
      ¬(∀ n ∈ rankFrequencies dupHand, 1 ≤ n ∧ n ≤ 4) :=
  ⟨rfl, by decide⟩

/-- C8 (amended): for every validated hand, rank occurrence counts sum
to 5, rank keys are exactly the occurring ranks and lie in [1,13], each
count lies in 1..5 (5 is reachable since duplicate cards pass validation),
suit counts sum to 5, and every suit key is a recognized suit. -/
theorem multiset_invariants (hand : List Card) (hw : WellFormed hand) :
    (rankFrequencies hand).sum = 5 ∧
    (∀ r : Int, r ∈ rankKeys hand ↔ r ∈ hand.map Card.rank) ∧
    (∀ r ∈ rankKeys hand, (1 ≤ r ∧ r ≤ 13) ∧
      1 ≤ rankCount hand r ∧ rankCount hand r ≤ 5) ∧
    (suitFrequencies hand).sum = 5 ∧
    (∀ s ∈ suitKeys hand, s ∈ VALID_SUITS) := by
  obtain ⟨h5, hranks, hsuits⟩ := hw
  refine ⟨?_, ?_, ?_, ?_, ?_⟩
  · rw [rankFrequencies_sum, h5]
  · intro r
    exact List.mem_dedup
  · intro r hr
    obtain ⟨c, hc, rfl⟩ := List.mem_map.mp (List.mem_dedup.mp hr)
    exact ⟨hranks c hc, rankCount_pos_iff.mpr (List.mem_map_of_mem _ hc),
      le_trans (rankCount_le_length hand _) (le_of_eq h5)⟩
  · rw [suitFrequencies_sum, h5]
  · intro s hs
    obtain ⟨c, hc, rfl⟩ := List.mem_map.mp (List.mem_dedup.mp hs)
    exact hsuits c hc

/-- Witness for C8 (amended) at the four-of-a-kind scenario hand. -/
theorem multiset_invariants_witness :
    (rankFrequencies
      [⟨7, "club"⟩, ⟨7, "spade"⟩, ⟨7, "diamond"⟩, ⟨7, "heart"⟩, ⟨2, "club"⟩]).sum = 5 :=
  (multiset_invariants _ (by decide)).1

/-! ### Five of a kind (duplicate cards) -/

theorem rank_all_eq {hand : List Card} {r : Int} (h5c : hand.length = 5)
    (hcnt : rankCount hand r = 5) :
    hand.map Card.rank = List.replicate 5 r := by
  refine List.eq_replicate_iff.mpr ⟨by simp [h5c], ?_⟩
  have hc : (hand.map Card.rank).count r = (hand.map Card.rank).length := by
    rw [List.length_map, h5c]
    exact hcnt
  intro b hb
  exact (List.count_eq_length.mp hc b hb).symm

theorem sortedRanks_of_five {hand : List Card} {r : Int} (h5c : hand.length = 5)
    (hcnt : rankCount hand r = 5) : sortedRanks hand = [r] := by
  have hmap := rank_all_eq h5c hcnt
  simp [sortedRanks, rankKeys, hmap, List.replicate, List.dedup_cons_of_mem,
    List.dedup_cons_of_not_mem, List.insertionSort, List.orderedInsert]

/-- C9: for every valid hand in which one rank occurs five times, the
classifier never returns `fourofakind`; it returns `flush` when all five
cards share one suit and `highcard` otherwise. -/
theorem five_of_a_kind (hand : List Card) (r : Int) (hw : WellFormed hand)
    (hcnt : rankCount hand r = 5) :
    evaluatePokerHand hand ≠ Except.ok "fourofakind" ∧
      ((∃ s, ∀ c ∈ hand, c.suit = s) →
        evaluatePokerHand hand = Except.ok "flush") ∧
      (¬(∃ s, ∀ c ∈ hand, c.suit = s) →
        evaluatePokerHand hand = Except.ok "highcard") := by
  have h5c := hw.1
  have hsr := sortedRanks_of_five h5c hcnt
  have hfreq : rankFrequencies hand = [5] := by
    simp [rankFrequencies, hsr, hcnt]
  have hroyal : isRoyal [r] = false := by
    simp [isRoyal, lastSlice, royalTail, ACE_RANK, BROADWAY_START]
    omega
  have hstraight : isStraight [r] = false := by
    simp [isStraight, TOTAL_CARDS, hroyal]
  have hclA : isFlush (suitFrequencies hand) = true → classify hand = "flush" := by
    intro hf
    simp [classify, hsr, hfreq, hroyal, hstraight, hf, FOUR_OF_A_KIND_COUNT,
      THREE_OF_A_KIND_COUNT, PAIR_COUNT, TWO_PAIR_COUNT]
  have hclB : isFlush (suitFrequencies hand) = false →
      classify hand = "highcard" := by
    intro hf
    simp [classify, hsr, hfreq, hroyal, hstraight, hf, FOUR_OF_A_KIND_COUNT,
      THREE_OF_A_KIND_COUNT, PAIR_COUNT, TWO_PAIR_COUNT]
  refine ⟨?_, fun hflush => ?_, fun hnf => ?_⟩
  · rw [evaluatePokerHand_eq_ok hw]
    by_cases hf : isFlush (suitFrequencies hand) = true
    · rw [hclA hf]
      simp
    · rw [hclB ((Bool.not_eq_true _) ▸ hf)]
      simp
  · rw [evaluatePokerHand_eq_ok hw, hclA ((isFlush_iff h5c).mpr hflush)]
  · have hf : isFlush (suitFrequencies hand) = false := by
      rw [← Bool.not_eq_true]
      exact fun h => hnf ((isFlush_iff h5c).mp h)
    rw [evaluatePokerHand_eq_ok hw, hclB hf]

/-- Witness for C9: five sevens of mixed suits are never four of a kind. -/
theorem five_of_a_kind_witness :
    evaluatePokerHand
        [⟨7, "heart"⟩, ⟨7, "heart"⟩, ⟨7, "club"⟩, ⟨7, "spade"⟩, ⟨7, "diamond"⟩] ≠
      Except.ok "fourofakind" :=
  (five_of_a_kind _ 7 (by decide) (by decide)).1

/-! ### The wheel straight -/

/-- A mixed-suit A-2-3-4-5 hand. -/
def wheelHand : List Card :=
  [⟨1, "heart"⟩, ⟨2, "spade"⟩, ⟨3, "diamond"⟩, ⟨4, "club"⟩, ⟨5, "spade"⟩]

/-- C2 counterexample: contrary to the claim, the wheel IS detected as a
straight — the mixed-suit A-2-3-4-5 hand returns `straight`. -/
theorem wheel_counterexample :
    isStraight (sortedRanks wheelHand) = true ∧
      evaluatePokerHand wheelHand = Except.ok "straight" :=
  ⟨by decide, rfl⟩

/-- C2 (amended): for every valid hand whose distinct ranks are exactly
{1,2,3,4,5}, the straight predicate is TRUE (1-2-3-4-5 is numerically
contiguous since Ace is rank 1), and a non-flush such hand returns
`straight`. -/
theorem wheel_is_straight (hand : List Card) (hw : WellFormed hand)
    (hr : ∀ r : Int, r ∈ hand.map Card.rank ↔ r ∈ ([1, 2, 3, 4, 5] : List Int)) :
    isStraight (sortedRanks hand) = true ∧
      (isFlush (suitFrequencies hand) = false →
        evaluatePokerHand hand = Except.ok "straight") := by
  have hsr : sortedRanks hand = [1, 2, 3, 4, 5] := by
    apply List.eq_of_perm_of_sorted ?_ (sortedRanks_sorted hand) (by decide)
    rw [List.perm_ext_iff_of_nodup (sortedRanks_nodup hand) (by decide)]
    intro a
    rw [mem_sortedRanks]
    exact hr a
  have hst2 : isStraight ([1, 2, 3, 4, 5] : List Int) = true := by decide
  refine ⟨by rw [hsr]; exact hst2, fun hnf => ?_⟩
  have hL : (rankFrequencies hand).length = 5 := by
    simp [rankFrequencies, hsr]
  have hsum : (rankFrequencies hand).sum = 5 := by
    rw [rankFrequencies_sum, hw.1]
  have hone := all_one_of_sum_eq_length (rankFrequencies hand) (by omega)
    (fun n hn => mem_rankFrequencies_pos hn)
  have hfl : rankFrequencies hand = [1, 1, 1, 1, 1] := by
    have hrep : rankFrequencies hand = List.replicate 5 1 :=
      List.eq_replicate_iff.mpr ⟨hL, hone⟩
    rw [hrep]
    rfl
  have hroyal : isRoyal ([1, 2, 3, 4, 5] : List Int) = false := by decide
  rw [evaluatePokerHand_eq_ok hw]
  simp [classify, hsr, hfl, hnf, hroyal, hst2, FOUR_OF_A_KIND_COUNT,
    THREE_OF_A_KIND_COUNT, PAIR_COUNT, TWO_PAIR_COUNT]

/-- Witness for C2 (amended) at the concrete wheel hand. -/
theorem wheel_is_straight_witness :
    isStraight (sortedRanks wheelHand) = true ∧
      (isFlush (suitFrequencies wheelHand) = false →
        evaluatePokerHand wheelHand = Except.ok "straight") :=
  wheel_is_straight wheelHand (by decide) (fun r => by simp [wheelHand])

end Poker
